import Mathlib

/-!
Verification of the `c10d::TCPStoreDaemon` request handlers
(`torch/lib/c10d/TCPStore.cpp`).

The daemon owns a key-value map `tcpStore_` together with three overlays:
`waitingSockets_` (key to list of sockets blocked in WAIT), `keysAwaited_`
(socket to remaining-count) and `watchedSockets_` (key to list of watch
subscribers).  We embed the daemon state as association lists, each handler as
a pure state transformer that also returns the ordered list of messages it
writes to sockets, and the error path of `queryFds` as the `scrub` function.
-/

namespace TCPStore

abbrev Key := String
abbrev Bytes := List Nat
abbrev Socket := Nat

/-! ### Association-list primitives (model of `std::unordered_map`) -/

/-- Lookup in an association list; the model of `map.find(k)`. -/
def alookup {α β : Type} [DecidableEq α] : List (α × β) → α → Option β
  | [], _ => none
  | p :: t, a => if p.1 = a then some p.2 else alookup t a

/-- Insert-or-assign; the model of `map[k] = v`. -/
def ainsert {α β : Type} [DecidableEq α] : List (α × β) → α → β → List (α × β)
  | [], a, b => [(a, b)]
  | p :: t, a, b => if p.1 = a then (a, b) :: t else p :: ainsert t a b

/-- Erase every binding of a key; the model of `map.erase(k)`. -/
def aeraseAll {α β : Type} [DecidableEq α] : List (α × β) → α → List (α × β)
  | [], _ => []
  | p :: t, a => if p.1 = a then aeraseAll t a else p :: aeraseAll t a

/-- Number of occurrences of a socket in a list. -/
def countSock : List Socket → Socket → Nat
  | [], _ => 0
  | x :: t, s => (if x = s then 1 else 0) + countSock t s

/-- Remove every occurrence of a socket from a list (scrub inner loop). -/
def removeAllSock : List Socket → Socket → List Socket
  | [], _ => []
  | x :: t, s => if x = s then removeAllSock t s else x :: removeAllSock t s

/-! ### Decimal strings (models of `std::to_string` and `std::stoll`) -/

/-- Decimal digit bytes of `n`, most significant first; fuel-driven so that it
reduces in the kernel.  Empty for `n = 0`. -/
def decAux : Nat → Nat → List Nat
  | 0, _ => []
  | f + 1, n => if n = 0 then [] else decAux f (n / 10) ++ [n % 10 + 48]

/-- ASCII decimal representation of a natural number. -/
def natDecBytes (n : Nat) : List Nat :=
  if n = 0 then [48] else decAux n n

/-- ASCII decimal representation of an integer; the model of
`std::to_string(int64_t)`. -/
def intToDecBytes (i : Int) : List Nat :=
  if i < 0 then 45 :: natDecBytes i.natAbs else natDecBytes i.natAbs

def isSpaceB (b : Nat) : Bool := b = 32 || (9 ≤ b && b ≤ 13)

def isDigitB (b : Nat) : Bool := 48 ≤ b && b ≤ 57

/-- Value of a maximal leading run of decimal digits; `none` when there is no
digit at all (`std::invalid_argument` in `std::stoll`). -/
def parseDigits (bs : List Nat) : Option Nat :=
  match bs.takeWhile isDigitB with
  | [] => none
  | ds => some (ds.foldl (fun a d => a * 10 + (d - 48)) 0)

/-- The model of `std::stoll` applied to the stored bytes: optional leading
whitespace, optional sign, at least one digit, trailing bytes ignored.
Out-of-range is not modelled: integers are unbounded here. -/
def stollParse (bs : List Nat) : Option Int :=
  match bs.dropWhile isSpaceB with
  | [] => none
  | b :: rest =>
    if b = 45 then (parseDigits rest).map (fun n => -(n : Int))
    else if b = 43 then (parseDigits rest).map (fun n => (n : Int))
    else (parseDigits (b :: rest)).map (fun n => (n : Int))

/-! ### Daemon state and messages -/

/-- One message written by the daemon onto a client socket. -/
inductive Msg where
  | stopWaiting
  | keyUpdated (key : Key) (oldData newData : Bytes)
  | vecReply (data : Bytes)
  | intReply (v : Int)
  | checkReady
  | checkNotReady
deriving DecidableEq, Repr

/-- The state owned by `TCPStoreDaemon`: the store map and the three
coordination overlays. -/
structure DaemonState where
  tcpStore : List (Key × Bytes)
  waitingSockets : List (Key × List Socket)
  keysAwaited : List (Socket × Int)
  watchedSockets : List (Key × List Socket)
deriving DecidableEq, Repr

def initState : DaemonState := ⟨[], [], [], []⟩

/-- `watchedSockets_[key].push_back(socket)` and
`waitingSockets_[key].push_back(socket)`: default-construct the bucket if
absent, then append. -/
def bucketPush (m : List (Key × List Socket)) (k : Key) (s : Socket) :
    List (Key × List Socket) :=
  ainsert m k ((alookup m k).getD [] ++ [s])

/-- The loop body of `wakeupWaitingClients`: decrement `keysAwaited_[socket]`
for each socket of the bucket (the indexing operator defaults a missing entry
to 0) and send STOP_WAITING exactly when the decremented value is 0. -/
def wakeRun : List Socket → List (Socket × Int) → List (Socket × Msg) →
    List (Socket × Int) × List (Socket × Msg)
  | [], ka, out => (ka, out)
  | s :: rest, ka, out =>
    let v := (alookup ka s).getD 0 - 1
    wakeRun rest (ainsert ka s v)
      (if v = 0 then out ++ [(s, Msg.stopWaiting)] else out)

/-- `TCPStoreDaemon::wakeupWaitingClients`. -/
def wakeupWaitingClients (key : Key) (st : DaemonState) :
    DaemonState × List (Socket × Msg) :=
  match alookup st.waitingSockets key with
  | none => (st, [])
  | some socks =>
    let r := wakeRun socks st.keysAwaited []
    ({ st with waitingSockets := aeraseAll st.waitingSockets key,
               keysAwaited := r.1 }, r.2)

/-- `TCPStoreDaemon::sendKeyUpdatesToClients`.  Note that
`watchedSockets_[key]` default-inserts an empty bucket when `key` has no
subscribers. -/
def sendKeyUpdatesToClients (key : Key) (oldData newData : Bytes)
    (w : List (Key × List Socket)) :
    List (Key × List Socket) × List (Socket × Msg) :=
  match alookup w key with
  | none => (ainsert w key [], [])
  | some l => (w, l.map (fun s => (s, Msg.keyUpdated key oldData newData)))

/-- `TCPStoreDaemon::setHandler` (the state/message part after the two recvs). -/
def setHandler (k : Key) (v : Bytes) (st : DaemonState) :
    DaemonState × List (Socket × Msg) :=
  let oldData := (alookup st.tcpStore k).getD []
  let st1 := { st with tcpStore := ainsert st.tcpStore k v }
  let r1 := wakeupWaitingClients k st1
  let r2 := sendKeyUpdatesToClients k oldData v r1.1.watchedSockets
  ({ r1.1 with watchedSockets := r2.1 }, r1.2 ++ r2.2)

/-- `TCPStoreDaemon::compareSetHandler`. -/
def compareSetHandler (sock : Socket) (k : Key) (currentValue newValue : Bytes)
    (st : DaemonState) : DaemonState × List (Socket × Msg) :=
  match alookup st.tcpStore k with
  | none => (st, [(sock, Msg.vecReply currentValue)])
  | some v =>
    if v = currentValue then
      let r := sendKeyUpdatesToClients k currentValue newValue st.watchedSockets
      ({ st with tcpStore := ainsert st.tcpStore k newValue,
                 watchedSockets := r.1 },
        r.2 ++ [(sock, Msg.vecReply newValue)])
    else (st, [(sock, Msg.vecReply v)])

/-- The tail of `addHandler` once the current value is parsed: store the
decimal string of the total, send the int64 reply, wake waiters and notify
watchers (in that order on the wire). -/
def addApply (sock : Socket) (k : Key) (oldData : Bytes) (total : Int)
    (st : DaemonState) : DaemonState × Int × List (Socket × Msg) :=
  let newData := intToDecBytes total
  let st1 := { st with tcpStore := ainsert st.tcpStore k newData }
  let r1 := wakeupWaitingClients k st1
  let r2 := sendKeyUpdatesToClients k oldData newData r1.1.watchedSockets
  ({ r1.1 with watchedSockets := r2.1 }, total,
    (sock, Msg.intReply total) :: (r1.2 ++ r2.2))

/-- `TCPStoreDaemon::addHandler`.  Returns `none` when `std::stoll` throws on
the current value; otherwise the new state, the int64 reply value and the full
ordered message trace.  Absence counts as 0, so the old data is the empty
vector and the total is the delta itself. -/
def addHandler (sock : Socket) (k : Key) (addVal : Int) (st : DaemonState) :
    Option (DaemonState × Int × List (Socket × Msg)) :=
  match alookup st.tcpStore k with
  | none => some (addApply sock k [] addVal st)
  | some v =>
    match stollParse v with
    | none => none
    | some c => some (addApply sock k v (addVal + c) st)

/-- `TCPStoreDaemon::getHandler`: `tcpStore_.at(key)` throws when absent. -/
def getHandler (k : Key) (st : DaemonState) : Option Bytes :=
  alookup st.tcpStore k

/-- `TCPStoreDaemon::deleteHandler`. -/
def deleteHandler (sock : Socket) (k : Key) (st : DaemonState) :
    DaemonState × List (Socket × Msg) :=
  let present := (alookup st.tcpStore k).isSome
  ({ st with tcpStore := aeraseAll st.tcpStore k,
             watchedSockets := aeraseAll st.watchedSockets k },
    [(sock, Msg.intReply (if present then 1 else 0))])

/-- `TCPStoreDaemon::checkKeys`. -/
def checkKeys (st : DaemonState) (keys : List Key) : Bool :=
  keys.all (fun k => (alookup st.tcpStore k).isSome)

/-- `TCPStoreDaemon::checkHandler`. -/
def checkHandler (sock : Socket) (keys : List Key) (st : DaemonState) :
    DaemonState × List (Socket × Msg) :=
  (st, [(sock, if checkKeys st keys then Msg.checkReady else Msg.checkNotReady)])

/-- The registration loop of `waitHandler`: push the socket onto the bucket of
every key that is not yet set, counting them. -/
def waitReg (sock : Socket) : List Key → List (Key × List Socket) →
    List (Key × Bytes) → Int → List (Key × List Socket) × Int
  | [], w, _, n => (w, n)
  | k :: rest, w, store, n =>
    if (alookup store k).isSome then waitReg sock rest w store n
    else waitReg sock rest (bucketPush w k sock) store (n + 1)

/-- `TCPStoreDaemon::waitHandler`. -/
def waitHandler (sock : Socket) (keys : List Key) (st : DaemonState) :
    DaemonState × List (Socket × Msg) :=
  if checkKeys st keys then (st, [(sock, Msg.stopWaiting)])
  else
    let r := waitReg sock keys st.waitingSockets st.tcpStore 0
    ({ st with waitingSockets := r.1,
               keysAwaited := ainsert st.keysAwaited sock r.2 }, [])

/-- `TCPStoreDaemon::watchHandler`. -/
def watchHandler (sock : Socket) (k : Key) (st : DaemonState) : DaemonState :=
  { st with watchedSockets := bucketPush st.watchedSockets k sock }

/-- A decoded request, i.e. the opcode with its typed arguments. -/
inductive Request where
  | set (k : Key) (v : Bytes)
  | compareSet (k : Key) (currentValue newValue : Bytes)
  | add (k : Key) (delta : Int)
  | get (k : Key)
  | check (keys : List Key)
  | wait (keys : List Key)
  | getNumKeys
  | watchKey (k : Key)
  | deleteKey (k : Key)
deriving DecidableEq, Repr

/-- `TCPStoreDaemon::query`: dispatch one request.  `none` means the handler
threw. -/
def handle (sock : Socket) : Request → DaemonState →
    Option (DaemonState × List (Socket × Msg))
  | .set k v, st => some (setHandler k v st)
  | .compareSet k c n, st => some (compareSetHandler sock k c n st)
  | .add k d, st => (addHandler sock k d st).map (fun r => (r.1, r.2.2))
  | .get k, st => (getHandler k st).map (fun v => (st, [(sock, Msg.vecReply v)]))
  | .check keys, st => some (checkHandler sock keys st)
  | .wait keys, st => some (waitHandler sock keys st)
  | .getNumKeys, st => some (st, [(sock, Msg.intReply st.tcpStore.length)])
  | .watchKey k, st => some (watchHandler sock k st, [])
  | .deleteKey k, st => some (deleteHandler sock k st)

/-- The per-bucket scrub of `queryFds`: drop every occurrence of the dead
socket, then drop buckets left (or found) empty. -/
def scrubBuckets : List (Key × List Socket) → Socket → List (Key × List Socket)
  | [], _ => []
  | p :: t, s =>
    if removeAllSock p.2 s = [] then scrubBuckets t s
    else (p.1, removeAllSock p.2 s) :: scrubBuckets t s

/-- The `catch` block of `TCPStoreDaemon::queryFds`: remove all tracking state
of the dead socket. -/
def scrub (st : DaemonState) (s : Socket) : DaemonState :=
  { st with
    waitingSockets := scrubBuckets st.waitingSockets s
    watchedSockets := scrubBuckets st.watchedSockets s
    keysAwaited := aeraseAll st.keysAwaited s }

/-- One socket's turn inside `queryFds`: dispatch, or on failure close and
scrub (the `Bool` records whether the connection survived). -/
def dispatchStep (sock : Socket) (r : Request) (st : DaemonState) :
    DaemonState × List (Socket × Msg) × Bool :=
  match handle sock r st with
  | some (st', msgs) => (st', msgs, true)
  | none => (scrub st sock, [], false)

/-- The state reached after one request (messages discarded). -/
def stepA (st : DaemonState) (a : Socket × Request) : DaemonState :=
  (dispatchStep a.1 a.2 st).1

/-- State reached by handling a sequence of requests. -/
def execTrace (tr : List (Socket × Request)) (st : DaemonState) : DaemonState :=
  tr.foldl stepA st

end TCPStore

namespace TCPStore

/-! ### Association-list lemmas -/

theorem alookup_ainsert_self {α β : Type} [DecidableEq α] (m : List (α × β))
    (a : α) (b : β) : alookup (ainsert m a b) a = some b := by
  induction m with
  | nil => simp [ainsert, alookup]
  | cons p t ih =>
    by_cases h : p.1 = a
    · simp [ainsert, h, alookup]
    · simp [ainsert, h, alookup, ih]

theorem alookup_ainsert_ne {α β : Type} [DecidableEq α] (m : List (α × β))
    (a a' : α) (b : β) (h : a' ≠ a) :
    alookup (ainsert m a b) a' = alookup m a' := by
  induction m with
  | nil => simp [ainsert, alookup, Ne.symm h]
  | cons p t ih =>
    by_cases hp : p.1 = a
    · simp [ainsert, hp, alookup, Ne.symm h, h]
    · by_cases hp' : p.1 = a'
      · simp [ainsert, hp, alookup, hp', h, Ne.symm h]
      · simp [ainsert, hp, alookup, hp', ih]

theorem alookup_aeraseAll_self {α β : Type} [DecidableEq α] (m : List (α × β))
    (a : α) : alookup (aeraseAll m a) a = none := by
  induction m with
  | nil => simp [aeraseAll, alookup]
  | cons p t ih =>
    by_cases h : p.1 = a
    · simp [aeraseAll, h, ih]
    · simp [aeraseAll, h, alookup, ih]

theorem alookup_aeraseAll_ne {α β : Type} [DecidableEq α] (m : List (α × β))
    (a a' : α) (h : a' ≠ a) :
    alookup (aeraseAll m a) a' = alookup m a' := by
  induction m with
  | nil => simp [aeraseAll]
  | cons p t ih =>
    by_cases hp : p.1 = a
    · simp [aeraseAll, hp, alookup, Ne.symm h, h, ih]
    · by_cases hp' : p.1 = a'
      · simp [aeraseAll, hp, alookup, hp', h, Ne.symm h]
      · simp [aeraseAll, hp, alookup, hp', ih]

/-! ### Projection lemmas for the handlers -/

theorem wakeup_tcpStore (k : Key) (st : DaemonState) :
    (wakeupWaitingClients k st).1.tcpStore = st.tcpStore := by
  unfold wakeupWaitingClients
  cases alookup st.waitingSockets k <;> rfl

theorem wakeup_watched (k : Key) (st : DaemonState) :
    (wakeupWaitingClients k st).1.watchedSockets = st.watchedSockets := by
  unfold wakeupWaitingClients
  cases alookup st.waitingSockets k <;> rfl

theorem sendKeyUpdates_isSome (k : Key) (o n : Bytes)
    (w : List (Key × List Socket)) :
    (alookup (sendKeyUpdatesToClients k o n w).1 k).isSome := by
  unfold sendKeyUpdatesToClients
  cases h : alookup w k with
  | none => simp [alookup_ainsert_self]
  | some l => simp [h]

theorem sendKeyUpdates_absent (k : Key) (o n : Bytes)
    (w : List (Key × List Socket)) (h : alookup w k = none) :
    alookup (sendKeyUpdatesToClients k o n w).1 k = some [] := by
  unfold sendKeyUpdatesToClients
  simp [h, alookup_ainsert_self]

theorem setHandler_tcpStore (k : Key) (v : Bytes) (st : DaemonState) :
    (setHandler k v st).1.tcpStore = ainsert st.tcpStore k v := by
  unfold setHandler sendKeyUpdatesToClients
  cases alookup (wakeupWaitingClients k
      { st with tcpStore := ainsert st.tcpStore k v }).1.watchedSockets k <;>
    simp [wakeup_tcpStore]

theorem setHandler_waiting_keysAwaited (k : Key) (v : Bytes) (st : DaemonState) :
    (setHandler k v st).1.waitingSockets =
      (wakeupWaitingClients k { st with tcpStore := ainsert st.tcpStore k v }).1.waitingSockets ∧
    (setHandler k v st).1.keysAwaited =
      (wakeupWaitingClients k { st with tcpStore := ainsert st.tcpStore k v }).1.keysAwaited := by
  unfold setHandler sendKeyUpdatesToClients
  cases alookup (wakeupWaitingClients k
      { st with tcpStore := ainsert st.tcpStore k v }).1.watchedSockets k <;>
    simp

/-! ### C10: WAIT with zero keys -/

/-- C10: a WAIT request carrying zero keys is answered with an immediate
STOP_WAITING reply and changes nothing: `checkKeys` is vacuously true on the
empty key list, so neither the wait lists, nor the remaining-count map, nor
the store map are touched. -/
theorem waitHandler_no_keys (st : DaemonState) (sock : Socket) :
    waitHandler sock [] st = (st, [(sock, Msg.stopWaiting)]) := by
  simp [waitHandler, checkKeys]

/-! ### C5: DELETE_KEY semantics -/

/-- C5: DELETE_KEY erases the key from the store map, replies with 1 when the
key was present and 0 otherwise, drops the key's whole watcher list, and
leaves the wait overlay (both the key→waiting-sockets lists and the
remaining-count map) completely untouched; consequently after a SET the first
delete replies 1 and the second replies 0. -/
theorem deleteKey_semantics (st : DaemonState) (sock : Socket) (k : Key)
    (v : Bytes) :
    (alookup (deleteHandler sock k st).1.tcpStore k = none) ∧
    ((deleteHandler sock k st).2 =
      [(sock, Msg.intReply (if (alookup st.tcpStore k).isSome then 1 else 0))]) ∧
    (alookup (deleteHandler sock k st).1.watchedSockets k = none) ∧
    ((deleteHandler sock k st).1.waitingSockets = st.waitingSockets) ∧
    ((deleteHandler sock k st).1.keysAwaited = st.keysAwaited) ∧
    ((deleteHandler sock k (setHandler k v st).1).2 = [(sock, Msg.intReply 1)]) ∧
    ((deleteHandler sock k
        (deleteHandler sock k (setHandler k v st).1).1).2 =
      [(sock, Msg.intReply 0)]) := by
  refine ⟨?_, rfl, ?_, rfl, rfl, ?_, ?_⟩
  · simp [deleteHandler, alookup_aeraseAll_self]
  · simp [deleteHandler, alookup_aeraseAll_self]
  · simp [deleteHandler, setHandler_tcpStore, alookup_ainsert_self]
  · simp [deleteHandler, setHandler_tcpStore, alookup_ainsert_self,
      alookup_aeraseAll_self]

end TCPStore

namespace TCPStore

/-! ### C1: compare-set fixed point -/

/-- C1: with `k` absent, COMPARE_SET replies the caller-supplied expected
value and leaves the whole state (in particular the absence of `k`)
unchanged; with `k` holding `v ≠ e` it replies `v` and changes nothing; with
`k` holding `e` it stores `d`, notifies only watchers, and replies `d`. -/
theorem compareSet_fixed_point (st : DaemonState) (sock : Socket) (k : Key)
    (e d : Bytes) :
    (alookup st.tcpStore k = none →
      compareSetHandler sock k e d st = (st, [(sock, Msg.vecReply e)])) ∧
    (∀ v, alookup st.tcpStore k = some v → v ≠ e →
      compareSetHandler sock k e d st = (st, [(sock, Msg.vecReply v)])) ∧
    (alookup st.tcpStore k = some e →
      alookup (compareSetHandler sock k e d st).1.tcpStore k = some d ∧
      ∃ notifs, (compareSetHandler sock k e d st).2 =
          notifs ++ [(sock, Msg.vecReply d)] ∧
        ∀ p ∈ notifs, p.2 = Msg.keyUpdated k e d) := by
  refine ⟨fun h => ?_, fun v h hne => ?_, fun h => ?_⟩
  · simp [compareSetHandler, h]
  · simp [compareSetHandler, h, hne]
  · unfold compareSetHandler sendKeyUpdatesToClients
    rw [h]
    simp only [if_pos rfl]
    cases hw : alookup st.watchedSockets k with
    | none =>
      refine ⟨by simp [alookup_ainsert_self], [], by simp, by simp⟩
    | some l =>
      refine ⟨by simp [alookup_ainsert_self],
        l.map (fun s => (s, Msg.keyUpdated k e d)), by simp, ?_⟩
      intro p hp
      simp only [List.mem_map] at hp
      obtain ⟨s, _, rfl⟩ := hp
      rfl

/-! ### C8: GET on a missing key fails the handler -/

/-- C8: handling GET for an absent key fails (the `at` lookup throws), and the
dispatch loop then closes and scrubs the connection without sending any
reply; GET for a present key replies with the stored value, changes nothing
and raises nothing. -/
theorem get_missing_fails (st : DaemonState) (sock : Socket) (k : Key) :
    (alookup st.tcpStore k = none →
      handle sock (Request.get k) st = none ∧
      dispatchStep sock (Request.get k) st = (scrub st sock, [], false)) ∧
    (∀ v, alookup st.tcpStore k = some v →
      handle sock (Request.get k) st = some (st, [(sock, Msg.vecReply v)]) ∧
      dispatchStep sock (Request.get k) st =
        (st, [(sock, Msg.vecReply v)], true)) := by
  refine ⟨fun h => ?_, fun v h => ?_⟩
  · have h1 : handle sock (Request.get k) st = none := by
      simp [handle, getHandler, h]
    exact ⟨h1, by simp [dispatchStep, h1]⟩
  · have h1 : handle sock (Request.get k) st =
        some (st, [(sock, Msg.vecReply v)]) := by
      simp [handle, getHandler, h]
    exact ⟨h1, by simp [dispatchStep, h1]⟩

/-! ### C9: SET and ADD default-insert a watch bucket -/

/-- C9: the notification routine indexes `watchedSockets_` with the
default-inserting `operator[]`, so every SET deposits a (possibly empty)
subscriber bucket for the mutated key, and so does every completed ADD; when
the key had no subscribers at all the deposited bucket is empty, hence the
watch overlay's key set is not limited to keys with live subscribers. -/
theorem mutation_inserts_watch_bucket (st : DaemonState) (sock : Socket)
    (k : Key) (v : Bytes) :
    ((alookup (setHandler k v st).1.watchedSockets k).isSome) ∧
    (alookup st.watchedSockets k = none →
      alookup (setHandler k v st).1.watchedSockets k = some []) ∧
    (∀ d st' total msgs, addHandler sock k d st = some (st', total, msgs) →
      (alookup st'.watchedSockets k).isSome ∧
      (alookup st.watchedSockets k = none →
        alookup st'.watchedSockets k = some [])) := by
  have watchOf : ∀ (o : Bytes) (t : Int),
      ((alookup (addApply sock k o t st).1.watchedSockets k).isSome) ∧
      (alookup st.watchedSockets k = none →
        alookup (addApply sock k o t st).1.watchedSockets k = some []) := by
    intro o t
    constructor
    · unfold addApply
      exact sendKeyUpdates_isSome _ _ _ _
    · intro hw
      unfold addApply
      exact sendKeyUpdates_absent _ _ _ _ (by rw [wakeup_watched]; exact hw)
  refine ⟨?_, fun h => ?_, fun d st' total msgs h => ?_⟩
  · unfold setHandler
    exact sendKeyUpdates_isSome _ _ _ _
  · unfold setHandler
    exact sendKeyUpdates_absent _ _ _ _ (by rw [wakeup_watched]; exact h)
  · unfold addHandler at h
    cases hs : alookup st.tcpStore k with
    | none =>
      rw [hs] at h
      have hst : (addApply sock k [] d st).1 = st' :=
        congrArg Prod.fst (Option.some.inj h)
      rw [← hst]
      exact watchOf [] d
    | some w =>
      simp only [hs] at h
      cases hp : stollParse w with
      | none => simp [hp] at h
      | some c =>
        simp only [hp, Option.some.injEq] at h
        have hst : (addApply sock k w (d + c) st).1 = st' :=
          congrArg Prod.fst h
        rw [← hst]
        exact watchOf w (d + c)

end TCPStore

namespace TCPStore

/-! ### Witnesses for C1, C8, C9 -/

theorem compareSet_fixed_point_witness :
    (compareSetHandler 3 "k" [9] [2] initState =
      (initState, [(3, Msg.vecReply [9])])) ∧
    (compareSetHandler 3 "k" [9] [2] (DaemonState.mk [("k", [1])] [] [] []) =
      (DaemonState.mk [("k", [1])] [] [] [], [(3, Msg.vecReply [1])])) ∧
    (alookup (compareSetHandler 3 "k" [1] [2]
        (DaemonState.mk [("k", [1])] [] [] [])).1.tcpStore "k" = some [2]) :=
  ⟨(compareSet_fixed_point initState 3 "k" [9] [2]).1 rfl,
   (compareSet_fixed_point (DaemonState.mk [("k", [1])] [] [] []) 3 "k"
      [9] [2]).2.1 [1] rfl (by decide),
   ((compareSet_fixed_point (DaemonState.mk [("k", [1])] [] [] []) 3 "k"
      [1] [2]).2.2 rfl).1⟩

theorem get_missing_fails_witness :
    (handle 3 (Request.get "k") initState = none ∧
      dispatchStep 3 (Request.get "k") initState =
        (scrub initState 3, [], false)) ∧
    (handle 3 (Request.get "k") (DaemonState.mk [("k", [7])] [] [] []) =
      some (DaemonState.mk [("k", [7])] [] [] [], [(3, Msg.vecReply [7])])) :=
  ⟨(get_missing_fails initState 3 "k").1 rfl,
   ((get_missing_fails (DaemonState.mk [("k", [7])] [] [] []) 3 "k").2
      [7] rfl).1⟩

theorem mutation_inserts_watch_bucket_witness :
    alookup (setHandler "k" [1] initState).1.watchedSockets "k" = some [] ∧
    alookup (DaemonState.mk [("k", [53])] [] [] [("k", [])]).watchedSockets "k"
      = some [] :=
  ⟨(mutation_inserts_watch_bucket initState 3 "k" [1]).2.1 rfl,
   ((mutation_inserts_watch_bucket initState 3 "k" [1]).2.2 5
      (DaemonState.mk [("k", [53])] [] [] [("k", [])]) 5
      [(3, Msg.intReply 5)] rfl).2 rfl⟩

/-! ### C6: event-loop step order -/

def POLLIN : Nat := 1
def POLLHUP : Nat := 16

/-- Observable actions of one iteration of the daemon event loop. -/
inductive LoopEvent where
  | accepted
  | exited
  | dispatched (s : Socket)
  | errorThrown
deriving DecidableEq, Repr

/-- One iteration of the POSIX `TCPStoreDaemon::run` body after `poll`
returns.  `fds[0]` is the master's listening socket and `fds[1]` the control
pipe's reading end; `queryFds` dispatches the ready accepted sockets only when
neither of the first two checks ended the iteration. -/
def runIterationEvents (listenRevents pipeRevents : Nat)
    (readySockets : List Socket) : List LoopEvent :=
  if listenRevents ≠ 0 ∧ listenRevents ^^^ POLLIN ≠ 0 then [LoopEvent.errorThrown]
  else
    (if listenRevents ≠ 0 then [LoopEvent.accepted] else []) ++
    (if pipeRevents ≠ 0 then
      (if pipeRevents ^^^ POLLHUP ≠ 0 then [LoopEvent.errorThrown]
       else [LoopEvent.exited])
     else readySockets.map LoopEvent.dispatched)

/-- Modelled from the spec: the event-loop step order of §4.2 — "(1) if
shutdown is signaled, exit the loop; (2) if the listening socket is ready,
accept one connection, register it; (3) for every accepted socket with an
event, dispatch one request". -/
def specIterationEvents (shutdownReady listenReady : Bool)
    (readySockets : List Socket) : List LoopEvent :=
  if shutdownReady then [LoopEvent.exited]
  else
    (if listenReady then [LoopEvent.accepted] else []) ++
    readySockets.map LoopEvent.dispatched

/-- C6 counterexample: when the listening socket and the shutdown pipe are
ready in the same poll round, the code accepts the connection first and only
then exits, whereas the claimed order exits without accepting. -/
theorem run_order_counterexample :
    runIterationEvents POLLIN POLLHUP [] =
      [LoopEvent.accepted, LoopEvent.exited] ∧
    specIterationEvents true true [] = [LoopEvent.exited] ∧
    runIterationEvents POLLIN POLLHUP [] ≠ specIterationEvents true true [] :=
  ⟨by decide, by decide, by decide⟩

/-- C6 (amended): in every iteration the loop first accepts one incoming
connection if the listening socket is ready, second checks the shutdown pipe
and exits if it is signaled, and only third dispatches requests on ready
accepted sockets; an iteration that exits dispatches nothing. -/
theorem run_order (ready : List Socket) :
    runIterationEvents POLLIN POLLHUP ready =
      [LoopEvent.accepted, LoopEvent.exited] ∧
    runIterationEvents POLLIN 0 ready =
      LoopEvent.accepted :: ready.map LoopEvent.dispatched ∧
    runIterationEvents 0 POLLHUP ready = [LoopEvent.exited] ∧
    runIterationEvents 0 0 ready = ready.map LoopEvent.dispatched := by
  refine ⟨?_, ?_, ?_, ?_⟩ <;> simp [runIterationEvents, POLLIN, POLLHUP]

end TCPStore

namespace TCPStore

/-! ### C7: socket-death scrubbing -/

theorem removeAllSock_not_mem (b : List Socket) (s : Socket) :
    s ∉ removeAllSock b s := by
  induction b with
  | nil => simp [removeAllSock]
  | cons x t ih =>
    by_cases h : x = s
    · simpa [removeAllSock, h] using ih
    · simp [removeAllSock, h, ih, Ne.symm h]

theorem removeAllSock_append (a b : List Socket) (s : Socket) :
    removeAllSock (a ++ b) s = removeAllSock a s ++ removeAllSock b s := by
  induction a with
  | nil => simp [removeAllSock]
  | cons x t ih =>
    by_cases h : x = s <;> simp [removeAllSock, h, ih]

theorem mem_scrubBuckets (m : List (Key × List Socket)) (s : Socket) :
    ∀ p ∈ scrubBuckets m s, s ∉ p.2 ∧ p.2 ≠ [] := by
  induction m with
  | nil => simp [scrubBuckets]
  | cons q t ih =>
    intro p hp
    by_cases h : removeAllSock q.2 s = []
    · exact ih p (by simpa [scrubBuckets, h] using hp)
    · simp only [scrubBuckets, if_neg h] at hp
      rcases List.mem_cons.mp hp with h1 | h1
      · subst h1
        exact ⟨removeAllSock_not_mem q.2 s, h⟩
      · exact ih p h1

theorem alookup_mem {α β : Type} [DecidableEq α] (m : List (α × β)) (a : α)
    (b : β) (h : alookup m a = some b) : (a, b) ∈ m := by
  induction m with
  | nil => simp [alookup] at h
  | cons p t ih =>
    obtain ⟨p1, p2⟩ := p
    by_cases hp : p1 = a
    · simp only [alookup, if_pos hp, Option.some.injEq] at h
      subst hp
      subst h
      exact List.mem_cons_self _ _
    · simp only [alookup, if_neg hp] at h
      exact List.mem_cons_of_mem _ (ih h)

theorem scrubBuckets_cons (p : Key × List Socket)
    (t : List (Key × List Socket)) (s : Socket) :
    scrubBuckets (p :: t) s =
      if removeAllSock p.2 s = [] then scrubBuckets t s
      else (p.1, removeAllSock p.2 s) :: scrubBuckets t s := rfl

theorem scrubBuckets_bucketPush (m : List (Key × List Socket)) (k : Key)
    (s : Socket) : scrubBuckets (bucketPush m k s) s = scrubBuckets m s := by
  induction m with
  | nil =>
    simp [bucketPush, alookup, ainsert, scrubBuckets, removeAllSock]
  | cons p t ih =>
    by_cases h : p.1 = k
    · have hr : removeAllSock (p.2 ++ [s]) s = removeAllSock p.2 s := by
        rw [removeAllSock_append]
        simp [removeAllSock]
      simp only [bucketPush, alookup, if_pos h, Option.getD_some, ainsert,
        if_pos h]
      rw [scrubBuckets_cons, scrubBuckets_cons]
      simp only [hr, h]
    · have hb : bucketPush (p :: t) k s = p :: bucketPush t k s := by
        simp only [bucketPush, alookup, if_neg h, ainsert, if_neg h]
      rw [hb, scrubBuckets_cons, scrubBuckets_cons, ih]

theorem aeraseAll_ainsert_self {α β : Type} [DecidableEq α]
    (m : List (α × β)) (a : α) (b : β) :
    aeraseAll (ainsert m a b) a = aeraseAll m a := by
  induction m with
  | nil => simp [ainsert, aeraseAll]
  | cons p t ih =>
    by_cases h : p.1 = a
    · simp [ainsert, h, aeraseAll, ih]
    · simp [ainsert, h, aeraseAll, ih]

theorem waitHandler_watched (sock : Socket) (keys : List Key)
    (st : DaemonState) :
    (waitHandler sock keys st).1.watchedSockets = st.watchedSockets := by
  unfold waitHandler
  by_cases h : checkKeys st keys <;> simp [h]

theorem waitHandler_tcpStore (sock : Socket) (keys : List Key)
    (st : DaemonState) :
    (waitHandler sock keys st).1.tcpStore = st.tcpStore := by
  unfold waitHandler
  by_cases h : checkKeys st keys <;> simp [h]

theorem waitReg_scrub (sock : Socket) (keys : List Key)
    (w : List (Key × List Socket)) (store : List (Key × Bytes)) (n : Int) :
    scrubBuckets (waitReg sock keys w store n).1 sock = scrubBuckets w sock := by
  induction keys generalizing w n with
  | nil => rfl
  | cons k rest ih =>
    by_cases h : (alookup store k).isSome
    · simp only [waitReg, if_pos h]
      exact ih w n
    · simp only [waitReg, if_neg h]
      rw [ih]
      exact scrubBuckets_bucketPush w k sock

/-- C7: after a handler failure the dead socket is scrubbed from every
overlay: it occurs in no waiting bucket, its remaining-count entry is erased,
it occurs in no watch bucket, buckets left empty are erased (every surviving
bucket is nonempty), the store itself is untouched, and a WAIT registered by
the dead socket immediately before death leaves no trace: scrubbing after it
equals scrubbing without it. -/
theorem socket_scrub_clean (st : DaemonState) (s : Socket) :
    (∀ k l, alookup (scrub st s).waitingSockets k = some l →
      s ∉ l ∧ l ≠ []) ∧
    (alookup (scrub st s).keysAwaited s = none) ∧
    (∀ k l, alookup (scrub st s).watchedSockets k = some l →
      s ∉ l ∧ l ≠ []) ∧
    ((scrub st s).tcpStore = st.tcpStore) ∧
    (∀ keys, scrub (waitHandler s keys st).1 s = scrub st s) := by
  refine ⟨?_, ?_, ?_, rfl, ?_⟩
  · intro k l h
    exact mem_scrubBuckets st.waitingSockets s (k, l)
      (alookup_mem _ _ _ h)
  · exact alookup_aeraseAll_self st.keysAwaited s
  · intro k l h
    exact mem_scrubBuckets st.watchedSockets s (k, l)
      (alookup_mem _ _ _ h)
  · intro keys
    unfold waitHandler
    by_cases h : checkKeys st keys
    · simp [h]
    · simp only [if_neg h]
      unfold scrub
      simp only [waitReg_scrub, aeraseAll_ainsert_self]

end TCPStore

namespace TCPStore

/-! ### C2: watch delivery -/

/-- Discriminator for KEY_UPDATED frames. -/
def isKeyUpdated : Msg → Bool
  | Msg.keyUpdated _ _ _ => true
  | _ => false

/-- The KEY_UPDATED frames pushed to socket `s`, in emission order. -/
def keyUpdatedTo (s : Socket) : List (Socket × Msg) → List Msg
  | [] => []
  | p :: t =>
    if p.1 = s ∧ isKeyUpdated p.2 then p.2 :: keyUpdatedTo s t
    else keyUpdatedTo s t

theorem keyUpdatedTo_append (s : Socket) (a b : List (Socket × Msg)) :
    keyUpdatedTo s (a ++ b) = keyUpdatedTo s a ++ keyUpdatedTo s b := by
  induction a with
  | nil => simp [keyUpdatedTo]
  | cons p t ih =>
    by_cases h : p.1 = s ∧ isKeyUpdated p.2 <;> simp [keyUpdatedTo, h, ih]

theorem keyUpdatedTo_wakeRun (s : Socket) (socks : List Socket)
    (ka : List (Socket × Int)) (out : List (Socket × Msg)) :
    keyUpdatedTo s (wakeRun socks ka out).2 = keyUpdatedTo s out := by
  induction socks generalizing ka out with
  | nil => rfl
  | cons x rest ih =>
    show keyUpdatedTo s (wakeRun rest _ _).2 = _
    by_cases h : (alookup ka x).getD 0 - 1 = 0
    · rw [if_pos h, ih, keyUpdatedTo_append]
      simp [keyUpdatedTo, isKeyUpdated]
    · rw [if_neg h, ih]

theorem keyUpdatedTo_wakeup (s : Socket) (k : Key) (st : DaemonState) :
    keyUpdatedTo s (wakeupWaitingClients k st).2 = [] := by
  unfold wakeupWaitingClients
  cases alookup st.waitingSockets k with
  | none => rfl
  | some socks => simpa using keyUpdatedTo_wakeRun s socks st.keysAwaited []

theorem keyUpdatedTo_cons_other (s : Socket) (p : Socket × Msg)
    (l : List (Socket × Msg)) (h : isKeyUpdated p.2 = false) :
    keyUpdatedTo s (p :: l) = keyUpdatedTo s l := by
  simp [keyUpdatedTo, h]

theorem keyUpdatedTo_map_bucket (s : Socket) (l : List Socket) (k : Key)
    (o n : Bytes) :
    keyUpdatedTo s (l.map (fun x => (x, Msg.keyUpdated k o n))) =
      List.replicate (countSock l s) (Msg.keyUpdated k o n) := by
  induction l with
  | nil => rfl
  | cons x t ih =>
    by_cases h : x = s
    · have hc : (1 : Nat) + countSock t s = countSock t s + 1 := Nat.add_comm 1 _
      simp [keyUpdatedTo, h, isKeyUpdated, countSock, ih, hc,
        List.replicate_succ]
    · simp [keyUpdatedTo, h, isKeyUpdated, countSock, ih]

theorem keyUpdatedTo_sendKeyUpdates (s : Socket) (k : Key) (o n : Bytes)
    (w : List (Key × List Socket)) :
    keyUpdatedTo s (sendKeyUpdatesToClients k o n w).2 =
      List.replicate (countSock ((alookup w k).getD []) s)
        (Msg.keyUpdated k o n) := by
  unfold sendKeyUpdatesToClients
  cases h : alookup w k with
  | none => simp [keyUpdatedTo, countSock]
  | some l => simpa using keyUpdatedTo_map_bucket s l k o n

/-- C2: per mutation, the KEY_UPDATED frames pushed to a socket `s` are: one
frame `(k, old, new)` per subscription entry of `s` in `k`'s watch bucket for
a SET, for a successful COMPARE_SET (with `old = expected`, `new = desired`)
and for a completed ADD (with `new` the decimal string of the total); no
frame at all for a missed or key-absent COMPARE_SET and for DELETE_KEY.
`watchKey` appends the socket to the bucket consulted by later mutations;
within one handler the frames are emitted in bucket order, and a request
sequence concatenates the per-handler traces in order. -/
theorem watch_delivery (st : DaemonState) (sock s : Socket) (k : Key) :
    ((alookup (watchHandler s k st).watchedSockets k).getD [] =
      (alookup st.watchedSockets k).getD [] ++ [s]) ∧
    (∀ v, keyUpdatedTo s (setHandler k v st).2 =
      List.replicate (countSock ((alookup st.watchedSockets k).getD []) s)
        (Msg.keyUpdated k ((alookup st.tcpStore k).getD []) v)) ∧
    (∀ e d, alookup st.tcpStore k = some e →
      keyUpdatedTo s (compareSetHandler sock k e d st).2 =
        List.replicate (countSock ((alookup st.watchedSockets k).getD []) s)
          (Msg.keyUpdated k e d)) ∧
    (∀ e d v, alookup st.tcpStore k = some v → v ≠ e →
      keyUpdatedTo s (compareSetHandler sock k e d st).2 = []) ∧
    (∀ e d, alookup st.tcpStore k = none →
      keyUpdatedTo s (compareSetHandler sock k e d st).2 = []) ∧
    (∀ d st' total msgs, addHandler sock k d st = some (st', total, msgs) →
      keyUpdatedTo s msgs =
        List.replicate (countSock ((alookup st.watchedSockets k).getD []) s)
          (Msg.keyUpdated k ((alookup st.tcpStore k).getD [])
            (intToDecBytes total))) ∧
    (keyUpdatedTo s (deleteHandler sock k st).2 = []) := by
  have addTrace : ∀ (o : Bytes) (t : Int),
      keyUpdatedTo s (addApply sock k o t st).2.2 =
        List.replicate (countSock ((alookup st.watchedSockets k).getD []) s)
          (Msg.keyUpdated k o (intToDecBytes t)) := by
    intro o t
    have hmsgs : (addApply sock k o t st).2.2 =
        (sock, Msg.intReply t) ::
          ((wakeupWaitingClients k
              { st with tcpStore := ainsert st.tcpStore k (intToDecBytes t) }).2 ++
           (sendKeyUpdatesToClients k o (intToDecBytes t)
              (wakeupWaitingClients k
                { st with tcpStore := ainsert st.tcpStore k (intToDecBytes t) }).1.watchedSockets).2) :=
      rfl
    rw [hmsgs, keyUpdatedTo_cons_other s ((sock, Msg.intReply t)) _ rfl,
      keyUpdatedTo_append, keyUpdatedTo_wakeup, keyUpdatedTo_sendKeyUpdates,
      wakeup_watched]
    rfl
  refine ⟨?_, fun v => ?_, fun e d h => ?_, fun e d v h hne => ?_,
    fun e d h => ?_, fun d st' total msgs h => ?_, ?_⟩
  · unfold watchHandler bucketPush
    simp [alookup_ainsert_self]
  · unfold setHandler
    rw [keyUpdatedTo_append, keyUpdatedTo_wakeup,
      keyUpdatedTo_sendKeyUpdates, wakeup_watched]
    rfl
  · unfold compareSetHandler
    simp [h, keyUpdatedTo_append, keyUpdatedTo_sendKeyUpdates, keyUpdatedTo,
      isKeyUpdated]
  · unfold compareSetHandler
    simp only [h]
    rw [if_neg hne]
    simp [keyUpdatedTo, isKeyUpdated]
  · unfold compareSetHandler
    simp only [h]
    simp [keyUpdatedTo, isKeyUpdated]
  · unfold addHandler at h
    cases hs : alookup st.tcpStore k with
    | none =>
      rw [hs] at h
      have hm : (addApply sock k [] d st).2.2 = msgs :=
        congrArg (fun q => q.2.2) (Option.some.inj h)
      have htd : total = d :=
        (congrArg (fun q => q.2.1) (Option.some.inj h)).symm
      rw [← hm, addTrace, htd]
      rfl
    | some w =>
      simp only [hs] at h
      cases hp : stollParse w with
      | none => simp [hp] at h
      | some c =>
        simp only [hp, Option.some.injEq] at h
        have hm : (addApply sock k w (d + c) st).2.2 = msgs :=
          congrArg (fun q => q.2.2) h
        have htd : total = d + c :=
          (congrArg (fun q => q.2.1) h).symm
        rw [← hm, addTrace, htd]
        rfl
  · simp [deleteHandler, keyUpdatedTo, isKeyUpdated]

end TCPStore

namespace TCPStore

theorem watch_delivery_witness :
    keyUpdatedTo 6 (compareSetHandler 3 "k" [49] [50]
        (DaemonState.mk [("k", [49])] [] [] [("k", [6])])).2 =
      [Msg.keyUpdated "k" [49] [50]] ∧
    keyUpdatedTo 6 [(3, Msg.intReply 3), (6, Msg.keyUpdated "k" [49] [51])] =
      [Msg.keyUpdated "k" [49] [51]] :=
  ⟨(watch_delivery (DaemonState.mk [("k", [49])] [] [] [("k", [6])])
      3 6 "k").2.2.1 [49] [50] rfl,
   (watch_delivery (DaemonState.mk [("k", [49])] [] [] [("k", [6])])
      3 6 "k").2.2.2.2.2.1 2
      (DaemonState.mk [("k", [51])] [] [] [("k", [6])]) 3
      [(3, Msg.intReply 3), (6, Msg.keyUpdated "k" [49] [51])] rfl⟩

theorem socket_scrub_clean_witness :
    ((5 : Socket) ∉ ([7] : List Socket) ∧ ([7] : List Socket) ≠ []) ∧
    alookup (scrub (DaemonState.mk [] [("a", [5, 7])] [(5, 1), (7, 2)]
      [("b", [5])]) 5).keysAwaited 5 = none ∧
    scrub (waitHandler 5 ["c"] (DaemonState.mk [] [("a", [5, 7])]
        [(5, 1), (7, 2)] [("b", [5])])).1 5 =
      scrub (DaemonState.mk [] [("a", [5, 7])] [(5, 1), (7, 2)]
        [("b", [5])]) 5 :=
  ⟨(socket_scrub_clean (DaemonState.mk [] [("a", [5, 7])] [(5, 1), (7, 2)]
      [("b", [5])]) 5).1 "a" [7] rfl,
   (socket_scrub_clean (DaemonState.mk [] [("a", [5, 7])] [(5, 1), (7, 2)]
      [("b", [5])]) 5).2.1,
   (socket_scrub_clean (DaemonState.mk [] [("a", [5, 7])] [(5, 1), (7, 2)]
      [("b", [5])]) 5).2.2.2.2 ["c"]⟩

end TCPStore

namespace TCPStore

/-! ### C4: decimal round-trip -/

theorem decAux_zero (f : Nat) : decAux f 0 = [] := by
  cases f <;> simp [decAux]

theorem decAux_fuel (f : Nat) : ∀ (f' n : Nat), n ≤ f → n ≤ f' →
    decAux f n = decAux f' n := by
  induction f with
  | zero =>
    intro f' n h _
    interval_cases n
    simp [decAux_zero]
  | succ f ih =>
    intro f' n h h'
    by_cases hn : n = 0
    · simp [hn, decAux_zero]
    · cases f' with
      | zero => omega
      | succ f2 =>
        have hd : n / 10 < n := Nat.div_lt_self (by omega) (by omega)
        simp only [decAux, if_neg hn]
        rw [ih f2 (n / 10) (by omega) (by omega)]

theorem decAux_digits (f : Nat) : ∀ n, ∀ b ∈ decAux f n,
    48 ≤ b ∧ b ≤ 57 := by
  induction f with
  | zero => intro n b hb; simp [decAux] at hb
  | succ f ih =>
    intro n b hb
    by_cases hn : n = 0
    · simp [hn, decAux_zero] at hb
    · simp only [decAux, if_neg hn, List.mem_append, List.mem_singleton] at hb
      rcases hb with hb | hb
      · exact ih (n / 10) b hb
      · have : n % 10 < 10 := Nat.mod_lt _ (by omega)
        omega

theorem decAux_foldl (f : Nat) : ∀ (n a : Nat), n ≤ f →
    (decAux f n).foldl (fun a d => a * 10 + (d - 48)) a =
      a * 10 ^ (decAux f n).length + n := by
  induction f with
  | zero =>
    intro n a h
    interval_cases n
    simp [decAux_zero]
  | succ f ih =>
    intro n a h
    by_cases hn : n = 0
    · simp [hn, decAux_zero]
    · have hd : n / 10 < n := Nat.div_lt_self (by omega) (by omega)
      simp only [decAux, if_neg hn, List.foldl_append, List.length_append,
        List.foldl_cons, List.foldl_nil, List.length_cons, List.length_nil]
      rw [ih (n / 10) a (by omega)]
      have h48 : n % 10 + 48 - 48 = n % 10 := by omega
      rw [h48]
      have hmod : 10 * (n / 10) + n % 10 = n := Nat.div_add_mod n 10
      calc (a * 10 ^ (decAux f (n / 10)).length + n / 10) * 10 + n % 10
          = a * (10 ^ (decAux f (n / 10)).length * 10) +
              (10 * (n / 10) + n % 10) := by ring
        _ = a * 10 ^ ((decAux f (n / 10)).length + 0 + 1) + n := by
              rw [hmod, pow_succ]

theorem natDecBytes_digits (n : Nat) : ∀ b ∈ natDecBytes n,
    48 ≤ b ∧ b ≤ 57 := by
  intro b hb
  unfold natDecBytes at hb
  by_cases hn : n = 0
  · rw [if_pos hn] at hb
    have : b = 48 := by simpa using hb
    omega
  · exact decAux_digits n n b (by simpa [hn] using hb)

theorem natDecBytes_ne_nil (n : Nat) : natDecBytes n ≠ [] := by
  unfold natDecBytes
  by_cases hn : n = 0
  · simp [hn]
  · cases hm : n with
    | zero => omega
    | succ m =>
      simp only [if_neg hn, decAux, hm]
      rw [if_neg (by omega)]
      simp

theorem natDecBytes_foldl (n : Nat) :
    (natDecBytes n).foldl (fun a d => a * 10 + (d - 48)) 0 = n := by
  unfold natDecBytes
  by_cases hn : n = 0
  · simp [hn]
  · rw [if_neg hn, decAux_foldl n n 0 (le_refl n)]
    simp

theorem takeWhile_all {p : Nat → Bool} : ∀ (l : List Nat),
    (∀ b ∈ l, p b = true) → l.takeWhile p = l := by
  intro l h
  induction l with
  | nil => rfl
  | cons x t ih =>
    rw [List.takeWhile_cons, if_pos (h x (by simp))]
    rw [ih (fun b hb => h b (by simp [hb]))]

theorem parseDigits_natDecBytes (n : Nat) :
    parseDigits (natDecBytes n) = some n := by
  unfold parseDigits
  have htw : (natDecBytes n).takeWhile isDigitB = natDecBytes n := by
    refine takeWhile_all _ (fun b hb => ?_)
    have := natDecBytes_digits n b hb
    simp [isDigitB]
    omega
  rw [htw]
  cases hv : natDecBytes n with
  | nil => exact absurd hv (natDecBytes_ne_nil n)
  | cons x t =>
    have := natDecBytes_foldl n
    rw [hv] at this
    simp [this]

theorem dropWhile_cons_neg {p : Nat → Bool} (x : Nat) (l : List Nat)
    (h : p x = false) : (x :: l).dropWhile p = x :: l := by
  simp [List.dropWhile_cons, h]

/-- Round-trip: `std::stoll` applied to `std::to_string(i)` recovers `i`. -/
theorem stollParse_intToDecBytes (i : Int) :
    stollParse (intToDecBytes i) = some i := by
  by_cases hneg : i < 0
  · have h1 : ((i.natAbs : Int)) = -i := by
      rw [← Int.natAbs_neg]
      exact Int.natAbs_of_nonneg (by omega)
    unfold intToDecBytes
    rw [if_pos hneg]
    unfold stollParse
    rw [dropWhile_cons_neg 45 _ rfl]
    simp [parseDigits_natDecBytes, h1]
  · have h1 : ((i.natAbs : Int)) = i := Int.natAbs_of_nonneg (by omega)
    unfold intToDecBytes
    rw [if_neg hneg]
    cases hv : natDecBytes i.natAbs with
    | nil => exact absurd hv (natDecBytes_ne_nil _)
    | cons x t =>
      have hx : 48 ≤ x ∧ x ≤ 57 :=
        natDecBytes_digits i.natAbs x (by rw [hv]; simp)
      have hxs : isSpaceB x = false := by
        simp [isSpaceB]
        omega
      have hp : parseDigits (x :: t) = some i.natAbs := by
        rw [← hv]
        exact parseDigits_natDecBytes _
      have hx45 : x ≠ 45 := by omega
      have hx43 : x ≠ 43 := by omega
      unfold stollParse
      rw [dropWhile_cons_neg x t hxs]
      simp [hx45, hx43, hp, h1]

end TCPStore

namespace TCPStore

/-! ### C4: ADD semantics -/

theorem addApply_tcpStore (sock : Socket) (k : Key) (o : Bytes) (t : Int)
    (st : DaemonState) :
    (addApply sock k o t st).1.tcpStore =
      ainsert st.tcpStore k (intToDecBytes t) := by
  unfold addApply sendKeyUpdatesToClients
  cases alookup (wakeupWaitingClients k
      { st with tcpStore := ainsert st.tcpStore k (intToDecBytes t) }).1.watchedSockets k <;>
    simp [wakeup_tcpStore]

/-- Run a sequence of ADDs on one key from one socket, collecting the int64
replies in order. -/
def runAdds (sock : Socket) (k : Key) : List Int → DaemonState →
    Option (DaemonState × List Int)
  | [], st => some (st, [])
  | d :: rest, st =>
    match addHandler sock k d st with
    | none => none
    | some r => (runAdds sock k rest r.1).map (fun q => (q.1, r.2.1 :: q.2))

/-- The running totals of a delta sequence starting from `acc`. -/
def runningTotals (acc : Int) : List Int → List Int
  | [] => []
  | d :: rest => (acc + d) :: runningTotals (acc + d) rest

/-- Sum of a delta sequence. -/
def sumInt : List Int → Int
  | [] => 0
  | d :: rest => d + sumInt rest

theorem runAdds_from (sock : Socket) (k : Key) : ∀ (deltas : List Int)
    (st : DaemonState) (acc : Int),
    alookup st.tcpStore k = some (intToDecBytes acc) →
    ∃ stF, runAdds sock k deltas st = some (stF, runningTotals acc deltas) ∧
      alookup stF.tcpStore k = some (intToDecBytes (acc + sumInt deltas)) := by
  intro deltas
  induction deltas with
  | nil =>
    intro st acc h
    exact ⟨st, rfl, by simpa [sumInt] using h⟩
  | cons d rest ih =>
    intro st acc h
    have hstep : addHandler sock k d st =
        some (addApply sock k (intToDecBytes acc) (d + acc) st) := by
      unfold addHandler
      rw [h]
      simp [stollParse_intToDecBytes]
    have hstore : alookup (addApply sock k (intToDecBytes acc) (d + acc) st).1.tcpStore k =
        some (intToDecBytes (acc + d)) := by
      rw [addApply_tcpStore, alookup_ainsert_self]
      rw [Int.add_comm d acc]
    obtain ⟨stF, hrun, hfin⟩ :=
      ih (addApply sock k (intToDecBytes acc) (d + acc) st).1 (acc + d) hstore
    refine ⟨stF, ?_, ?_⟩
    · unfold runAdds
      rw [hstep]
      simp only [hrun, Option.map_some]
      have ht : (addApply sock k (intToDecBytes acc) (d + acc) st).2.1 = d + acc :=
        rfl
      rw [ht, Int.add_comm d acc]
      rfl
    · rw [hfin]
      congr 1
      congr 1
      show acc + d + sumInt rest = acc + (d + sumInt rest)
      exact Int.add_assoc acc d (sumInt rest)

/-- C4: ADD parses the current value as a signed decimal integer (0 when the
key is absent), adds the delta, stores the decimal string of the sum and
replies with the sum; a sequence of ADDs on an initially absent key replies
with the running totals in order and leaves the decimal string of the sum of
all deltas in the store.  Integers are unbounded in the model: int64 overflow
is undefined behaviour in the source (`addVal += std::stoll(...)`). -/
theorem add_semantics (st : DaemonState) (sock : Socket) (k : Key) (d : Int) :
    (alookup st.tcpStore k = none →
      ∃ st' msgs, addHandler sock k d st = some (st', d, msgs) ∧
        alookup st'.tcpStore k = some (intToDecBytes d) ∧
        msgs.head? = some (sock, Msg.intReply d)) ∧
    (∀ v c, alookup st.tcpStore k = some v → stollParse v = some c →
      ∃ st' msgs, addHandler sock k d st = some (st', d + c, msgs) ∧
        alookup st'.tcpStore k = some (intToDecBytes (d + c)) ∧
        msgs.head? = some (sock, Msg.intReply (d + c))) ∧
    (∀ d0 rest, alookup st.tcpStore k = none →
      ∃ stF, runAdds sock k (d0 :: rest) st =
          some (stF, runningTotals 0 (d0 :: rest)) ∧
        alookup stF.tcpStore k =
          some (intToDecBytes (sumInt (d0 :: rest)))) := by
  refine ⟨fun h => ?_, fun v c hv hc => ?_, fun d0 rest h => ?_⟩
  · refine ⟨(addApply sock k [] d st).1, (addApply sock k [] d st).2.2, ?_, ?_, rfl⟩
    · unfold addHandler
      rw [h]
      rfl
    · rw [addApply_tcpStore, alookup_ainsert_self]
  · refine ⟨(addApply sock k v (d + c) st).1,
      (addApply sock k v (d + c) st).2.2, ?_, ?_, rfl⟩
    · unfold addHandler
      rw [hv]
      simp only [hc]
      rfl
    · rw [addApply_tcpStore, alookup_ainsert_self]
  · have hstep : addHandler sock k d0 st =
        some (addApply sock k [] d0 st) := by
      unfold addHandler
      rw [h]
    have hstore : alookup (addApply sock k [] d0 st).1.tcpStore k =
        some (intToDecBytes d0) := by
      rw [addApply_tcpStore, alookup_ainsert_self]
    obtain ⟨stF, hrun, hfin⟩ := runAdds_from sock k rest
      (addApply sock k [] d0 st).1 d0 hstore
    refine ⟨stF, ?_, ?_⟩
    · unfold runAdds
      simp only [hstep]
      rw [hrun]
      have ht : (addApply sock k [] d0 st).2.1 = d0 := rfl
      rw [ht]
      simp [runningTotals]
    · rw [hfin]
      rfl

theorem add_semantics_witness :
    (∃ st' msgs, addHandler 3 "c" 5 initState = some (st', 5, msgs) ∧
      alookup st'.tcpStore "c" = some (intToDecBytes 5) ∧
      msgs.head? = some (3, Msg.intReply 5)) ∧
    (∃ stF, runAdds 3 "c" [1, 1, 1] initState =
        some (stF, runningTotals 0 [1, 1, 1]) ∧
      alookup stF.tcpStore "c" = some (intToDecBytes (sumInt [1, 1, 1]))) :=
  ⟨(add_semantics initState 3 "c" 5).1 rfl,
   (add_semantics initState 3 "c" 5).2.2 1 [1, 1] rfl⟩

end TCPStore

namespace TCPStore

/-! ### C3: wait-record invariant — counting infrastructure -/

/-- Total number of occurrences of a socket across all waiting buckets. -/
def occTotal : List (Key × List Socket) → Socket → Nat
  | [], _ => 0
  | p :: t, s => countSock p.2 s + occTotal t s

/-- Number of buckets whose list contains the socket. -/
def listsContaining : List (Key × List Socket) → Socket → Nat
  | [], _ => 0
  | p :: t, s => (if countSock p.2 s = 0 then 0 else 1) + listsContaining t s

/-- Number of STOP_WAITING messages addressed to a socket. -/
def countStopTo (s : Socket) : List (Socket × Msg) → Nat
  | [] => 0
  | p :: t => (if p = (s, Msg.stopWaiting) then 1 else 0) + countStopTo s t

/-- Keys of an association list are pairwise distinct (always true of states
reached from the empty maps, since `ainsert` never duplicates a key). -/
def UniqKeys {α β : Type} [DecidableEq α] : List (α × β) → Prop
  | [] => True
  | p :: t => alookup t p.1 = none ∧ UniqKeys t

/-- The §3 wait-record invariant, multiplicity-counting form: each socket's
remaining-count entry (0 when absent) equals its total number of occurrences
across the waiting buckets. -/
def WaitInv (st : DaemonState) : Prop :=
  ∀ s : Socket, (alookup st.keysAwaited s).getD 0 =
    (occTotal st.waitingSockets s : Int)

def isWaitReq : Request → Bool
  | Request.wait _ => true
  | _ => false

/-- A request trace in which no socket issues a WAIT while its
remaining-count is positive (real clients block on the WAIT reply, so they
satisfy this). -/
def GoodTrace : List (Socket × Request) → DaemonState → Prop
  | [], _ => True
  | a :: t, st =>
    (isWaitReq a.2 = true → (alookup st.keysAwaited a.1).getD 0 = 0) ∧
    GoodTrace t (stepA st a)

theorem countSock_append (a b : List Socket) (s : Socket) :
    countSock (a ++ b) s = countSock a s + countSock b s := by
  induction a with
  | nil => simp [countSock]
  | cons x t ih => simp [countSock, ih]; omega

theorem countStopTo_append (s : Socket) (a b : List (Socket × Msg)) :
    countStopTo s (a ++ b) = countStopTo s a + countStopTo s b := by
  induction a with
  | nil => simp [countStopTo]
  | cons p t ih => simp [countStopTo, ih]; omega

theorem countStopTo_sendKeyUpdates (s : Socket) (k : Key) (o n : Bytes)
    (w : List (Key × List Socket)) :
    countStopTo s (sendKeyUpdatesToClients k o n w).2 = 0 := by
  unfold sendKeyUpdatesToClients
  cases alookup w k with
  | none => rfl
  | some l =>
    simp only []
    induction l with
    | nil => rfl
    | cons x t ih => simpa [countStopTo] using ih

theorem countSock_le_occTotal (m : List (Key × List Socket)) (k : Key)
    (s : Socket) :
    countSock ((alookup m k).getD []) s ≤ occTotal m s := by
  induction m with
  | nil => simp [alookup, countSock]
  | cons p t ih =>
    by_cases h : p.1 = k
    · simp only [alookup, if_pos h, Option.getD_some, occTotal]
      omega
    · simp only [alookup, if_neg h, occTotal]
      omega

theorem aeraseAll_of_none {α β : Type} [DecidableEq α] (m : List (α × β))
    (a : α) (h : alookup m a = none) : aeraseAll m a = m := by
  induction m with
  | nil => rfl
  | cons p t ih =>
    by_cases hp : p.1 = a
    · simp [alookup, hp] at h
    · simp only [alookup, if_neg hp] at h
      simp [aeraseAll, hp, ih h]

theorem occTotal_aeraseAll (m : List (Key × List Socket)) (k : Key)
    (s : Socket) (hu : UniqKeys m) :
    occTotal (aeraseAll m k) s =
      occTotal m s - countSock ((alookup m k).getD []) s := by
  induction m with
  | nil => simp [aeraseAll, occTotal, alookup, countSock]
  | cons p t ih =>
    obtain ⟨hnone, hut⟩ := hu
    by_cases h : p.1 = k
    · rw [h] at hnone
      simp only [aeraseAll, if_pos h, alookup, occTotal]
      rw [aeraseAll_of_none t k hnone]
      simp [h]
    · have hle := countSock_le_occTotal t k s
      simp only [aeraseAll, if_neg h, alookup, if_neg h, occTotal, ih hut]
      omega

theorem countSock_removeAllSock_self (b : List Socket) (s : Socket) :
    countSock (removeAllSock b s) s = 0 := by
  induction b with
  | nil => rfl
  | cons x t ih =>
    by_cases h : x = s <;> simp [removeAllSock, h, countSock, ih, Ne.symm]

theorem countSock_removeAllSock_ne (b : List Socket) (s s' : Socket)
    (h : s' ≠ s) : countSock (removeAllSock b s) s' = countSock b s' := by
  induction b with
  | nil => rfl
  | cons x t ih =>
    by_cases hx : x = s
    · simp [removeAllSock, hx, countSock, ih, Ne.symm h]
    · simp [removeAllSock, hx, countSock, ih]

theorem occTotal_scrubBuckets_self (m : List (Key × List Socket))
    (s : Socket) : occTotal (scrubBuckets m s) s = 0 := by
  induction m with
  | nil => rfl
  | cons p t ih =>
    rw [scrubBuckets_cons]
    by_cases h : removeAllSock p.2 s = []
    · simp [h, ih]
    · simp [h, occTotal, countSock_removeAllSock_self, ih]

theorem occTotal_scrubBuckets_ne (m : List (Key × List Socket))
    (s s' : Socket) (h : s' ≠ s) :
    occTotal (scrubBuckets m s) s' = occTotal m s' := by
  induction m with
  | nil => rfl
  | cons p t ih =>
    rw [scrubBuckets_cons]
    by_cases hb : removeAllSock p.2 s = []
    · have : countSock p.2 s' = 0 := by
        have := countSock_removeAllSock_ne p.2 s s' h
        rw [hb] at this
        simpa [countSock] using this.symm
      simp [hb, ih, occTotal, this]
    · simp [hb, occTotal, countSock_removeAllSock_ne p.2 s s' h, ih]

end TCPStore

namespace TCPStore

/-! ### C3: wakeup characterization -/

theorem wakeRun_lookup (socks : List Socket) : ∀ (ka : List (Socket × Int))
    (out : List (Socket × Msg)) (s : Socket),
    alookup (wakeRun socks ka out).1 s =
      if countSock socks s = 0 then alookup ka s
      else some ((alookup ka s).getD 0 - (countSock socks s : Int)) := by
  induction socks with
  | nil => intro ka out s; simp [wakeRun, countSock]
  | cons x rest ih =>
    intro ka out s
    show alookup (wakeRun rest (ainsert ka x ((alookup ka x).getD 0 - 1)) _).1 s = _
    rw [ih]
    by_cases hx : x = s
    · subst hx
      rw [alookup_ainsert_self]
      by_cases hc : countSock rest x = 0
      · rw [if_pos hc]
        rw [if_neg (by simp [countSock, hc])]
        simp [countSock, hc]
      · rw [if_neg hc]
        rw [if_neg (by simp [countSock])]
        simp only [Option.getD_some, countSock, if_pos rfl, Option.some.injEq]
        push_cast
        omega
    · rw [alookup_ainsert_ne ka x s _ (Ne.symm hx)]
      simp [countSock, hx]

theorem wakeRun_countStop (socks : List Socket) : ∀ (ka : List (Socket × Int))
    (out : List (Socket × Msg)) (s : Socket),
    countStopTo s (wakeRun socks ka out).2 =
      countStopTo s out +
        (if 1 ≤ (alookup ka s).getD 0 ∧
            (alookup ka s).getD 0 ≤ (countSock socks s : Int)
         then 1 else 0) := by
  induction socks with
  | nil =>
    intro ka out s
    show countStopTo s out = _
    rw [if_neg (by simp [countSock]; omega)]
    omega
  | cons x rest ih =>
    intro ka out s
    show countStopTo s (wakeRun rest (ainsert ka x ((alookup ka x).getD 0 - 1))
        (if (alookup ka x).getD 0 - 1 = 0
         then out ++ [(x, Msg.stopWaiting)] else out)).2 = _
    rw [ih]
    by_cases hx : x = s
    · subst hx
      rw [alookup_ainsert_self]
      simp only [Option.getD_some, countSock, if_pos rfl]
      by_cases hv : (alookup ka x).getD 0 - 1 = 0
      · rw [if_pos hv, countStopTo_append]
        have h1 : countStopTo x [(x, Msg.stopWaiting)] = 1 := by
          simp [countStopTo]
        rw [h1]
        push_cast
        split_ifs <;> omega
      · rw [if_neg hv]
        push_cast
        split_ifs <;> omega
    · have hka : alookup (ainsert ka x ((alookup ka x).getD 0 - 1)) s =
          alookup ka s := alookup_ainsert_ne ka x s _ (Ne.symm hx)
      rw [hka]
      have hout : countStopTo s (if (alookup ka x).getD 0 - 1 = 0
          then out ++ [(x, Msg.stopWaiting)] else out) = countStopTo s out := by
        by_cases hv : (alookup ka x).getD 0 - 1 = 0
        · rw [if_pos hv, countStopTo_append]
          simp [countStopTo, hx]
        · rw [if_neg hv]
      rw [hout]
      simp [countSock, hx]

theorem wakeup_fields (k : Key) (st : DaemonState) :
    (wakeupWaitingClients k st).1.keysAwaited =
      (match alookup st.waitingSockets k with
       | none => st.keysAwaited
       | some socks => (wakeRun socks st.keysAwaited []).1) ∧
    (wakeupWaitingClients k st).1.waitingSockets =
      (match alookup st.waitingSockets k with
       | none => st.waitingSockets
       | some _ => aeraseAll st.waitingSockets k) ∧
    (wakeupWaitingClients k st).2 =
      (match alookup st.waitingSockets k with
       | none => []
       | some socks => (wakeRun socks st.keysAwaited []).2) := by
  unfold wakeupWaitingClients
  cases alookup st.waitingSockets k <;> exact ⟨rfl, rfl, rfl⟩

theorem wakeup_getD (k : Key) (st : DaemonState) (s : Socket) :
    (alookup (wakeupWaitingClients k st).1.keysAwaited s).getD 0 =
      (alookup st.keysAwaited s).getD 0 -
        (countSock ((alookup st.waitingSockets k).getD []) s : Int) := by
  rw [(wakeup_fields k st).1]
  cases h : alookup st.waitingSockets k with
  | none => simp [countSock]
  | some socks =>
    show (alookup (wakeRun socks st.keysAwaited []).1 s).getD 0 = _
    rw [wakeRun_lookup]
    by_cases hc : countSock socks s = 0
    · rw [if_pos hc]
      simp [hc]
    · rw [if_neg hc]
      simp

theorem wakeup_lookup_pos (k : Key) (st : DaemonState) (s : Socket)
    (socks : List Socket) (h : alookup st.waitingSockets k = some socks)
    (hc : countSock socks s ≠ 0) :
    alookup (wakeupWaitingClients k st).1.keysAwaited s =
      some ((alookup st.keysAwaited s).getD 0 - (countSock socks s : Int)) := by
  rw [(wakeup_fields k st).1, h]
  show alookup (wakeRun socks st.keysAwaited []).1 s = _
  rw [wakeRun_lookup, if_neg hc]

theorem wakeup_occ (k : Key) (st : DaemonState) (s : Socket)
    (hu : UniqKeys st.waitingSockets) :
    occTotal (wakeupWaitingClients k st).1.waitingSockets s =
      occTotal st.waitingSockets s -
        countSock ((alookup st.waitingSockets k).getD []) s := by
  rw [(wakeup_fields k st).2.1]
  cases h : alookup st.waitingSockets k with
  | none => simp [countSock]
  | some socks =>
    show occTotal (aeraseAll st.waitingSockets k) s = _
    rw [occTotal_aeraseAll _ _ _ hu, h]

theorem wakeup_countStop (k : Key) (st : DaemonState) (s : Socket) :
    countStopTo s (wakeupWaitingClients k st).2 =
      (if 1 ≤ (alookup st.keysAwaited s).getD 0 ∧
          (alookup st.keysAwaited s).getD 0 ≤
            (countSock ((alookup st.waitingSockets k).getD []) s : Int)
       then 1 else 0) := by
  rw [(wakeup_fields k st).2.2]
  cases h : alookup st.waitingSockets k with
  | none =>
    show countStopTo s [] = _
    simp only [countStopTo, Option.getD_none, countSock, Nat.cast_zero]
    rw [if_neg (by omega)]
  | some socks =>
    show countStopTo s (wakeRun socks st.keysAwaited []).2 = _
    rw [wakeRun_countStop]
    simp [countStopTo]

theorem UniqKeys_ainsert {α β : Type} [DecidableEq α] (m : List (α × β))
    (a : α) (b : β) (hu : UniqKeys m) : UniqKeys (ainsert m a b) := by
  induction m with
  | nil => exact ⟨rfl, trivial⟩
  | cons p t ih =>
    obtain ⟨h1, h2⟩ := hu
    by_cases hp : p.1 = a
    · simp only [ainsert, if_pos hp]
      rw [hp] at h1
      exact ⟨h1, h2⟩
    · simp only [ainsert, if_neg hp]
      refine ⟨?_, ih h2⟩
      rw [alookup_ainsert_ne t a p.1 b hp]
      exact h1

theorem UniqKeys_aeraseAll {α β : Type} [DecidableEq α] (m : List (α × β))
    (a : α) (hu : UniqKeys m) : UniqKeys (aeraseAll m a) := by
  induction m with
  | nil => exact trivial
  | cons p t ih =>
    obtain ⟨h1, h2⟩ := hu
    by_cases hp : p.1 = a
    · simp only [aeraseAll, if_pos hp]
      exact ih h2
    · simp only [aeraseAll, if_neg hp]
      refine ⟨?_, ih h2⟩
      rw [alookup_aeraseAll_ne t a p.1 hp]
      exact h1

theorem alookup_scrubBuckets_none (m : List (Key × List Socket)) (s : Socket)
    (k : Key) (h : alookup m k = none) :
    alookup (scrubBuckets m s) k = none := by
  induction m with
  | nil => rfl
  | cons p t ih =>
    by_cases hp : p.1 = k
    · simp [alookup, hp] at h
    · simp only [alookup, if_neg hp] at h
      rw [scrubBuckets_cons]
      by_cases hb : removeAllSock p.2 s = []
      · rw [if_pos hb]
        exact ih h
      · rw [if_neg hb]
        simp only [alookup, if_neg hp]
        exact ih h

theorem UniqKeys_scrubBuckets (m : List (Key × List Socket)) (s : Socket)
    (hu : UniqKeys m) : UniqKeys (scrubBuckets m s) := by
  induction m with
  | nil => exact trivial
  | cons p t ih =>
    obtain ⟨h1, h2⟩ := hu
    rw [scrubBuckets_cons]
    by_cases hb : removeAllSock p.2 s = []
    · rw [if_pos hb]
      exact ih h2
    · rw [if_neg hb]
      exact ⟨alookup_scrubBuckets_none t s p.1 h1, ih h2⟩

theorem wakeup_uniq (k : Key) (st : DaemonState)
    (hu : UniqKeys st.waitingSockets) :
    UniqKeys (wakeupWaitingClients k st).1.waitingSockets := by
  rw [(wakeup_fields k st).2.1]
  cases alookup st.waitingSockets k with
  | none => exact hu
  | some socks =>
    show UniqKeys (aeraseAll st.waitingSockets k)
    exact UniqKeys_aeraseAll _ _ hu

end TCPStore

namespace TCPStore

/-! ### C3: registration and step preservation -/

/-- Number of keys of the request (with multiplicity) that are absent from
the store. -/
def numAbsent (store : List (Key × Bytes)) : List Key → Nat
  | [] => 0
  | k :: rest =>
    (if (alookup store k).isSome then 0 else 1) + numAbsent store rest

theorem occTotal_bucketPush (m : List (Key × List Socket)) (k : Key)
    (s0 s : Socket) :
    occTotal (bucketPush m k s0) s =
      occTotal m s + (if s0 = s then 1 else 0) := by
  induction m with
  | nil =>
    by_cases hs : s0 = s <;>
      simp [bucketPush, alookup, ainsert, occTotal, countSock, hs]
  | cons p t ih =>
    by_cases h : p.1 = k
    · simp only [bucketPush, alookup, if_pos h, Option.getD_some, ainsert,
        if_pos h, occTotal, countSock_append, countSock]
      omega
    · have hb : bucketPush (p :: t) k s0 = p :: bucketPush t k s0 := by
        simp only [bucketPush, alookup, if_neg h, ainsert, if_neg h]
      rw [hb]
      simp only [occTotal, ih]
      omega

theorem waitReg_spec (sock : Socket) (keys : List Key) :
    ∀ (w : List (Key × List Socket)) (store : List (Key × Bytes)) (n : Int),
    ((waitReg sock keys w store n).2 = n + (numAbsent store keys : Int)) ∧
    (∀ s, occTotal (waitReg sock keys w store n).1 s =
      occTotal w s + (if s = sock then numAbsent store keys else 0)) ∧
    (UniqKeys w → UniqKeys (waitReg sock keys w store n).1) := by
  induction keys with
  | nil =>
    intro w store n
    refine ⟨by simp [waitReg, numAbsent], fun s => ?_, fun hu => hu⟩
    by_cases hs : s = sock <;> simp [waitReg, numAbsent, hs]
  | cons k rest ih =>
    intro w store n
    by_cases h : (alookup store k).isSome
    · simp only [waitReg, if_pos h]
      obtain ⟨i1, i2, i3⟩ := ih w store n
      refine ⟨by rw [i1]; simp [numAbsent, h], fun s => ?_, i3⟩
      rw [i2 s]
      by_cases hs : s = sock <;> simp [numAbsent, h, hs]
    · simp only [waitReg, if_neg h]
      obtain ⟨i1, i2, i3⟩ := ih (bucketPush w k sock) store (n + 1)
      refine ⟨?_, fun s => ?_, fun hu => i3 (UniqKeys_ainsert _ _ _ hu)⟩
      · rw [i1]
        simp only [numAbsent, h, if_false]
        push_cast
        omega
      · rw [i2 s, occTotal_bucketPush]
        by_cases hs : s = sock
        · subst hs
          simp [numAbsent, h]
          omega
        · simp [numAbsent, h, hs, Ne.symm hs]

/-- The conjunction of the two inductive invariants carried along a trace. -/
def StInv (st : DaemonState) : Prop :=
  UniqKeys st.waitingSockets ∧ WaitInv st

theorem wakeup_StInv (k : Key) (st : DaemonState) (h : StInv st) :
    StInv (wakeupWaitingClients k st).1 := by
  obtain ⟨hu, hwi⟩ := h
  refine ⟨wakeup_uniq k st hu, fun s => ?_⟩
  rw [wakeup_getD, wakeup_occ k st s hu, hwi s]
  have hle := countSock_le_occTotal st.waitingSockets k s
  omega

theorem setHandler_StInv (k : Key) (v : Bytes) (st : DaemonState)
    (h : StInv st) : StInv (setHandler k v st).1 := by
  have h2 := wakeup_StInv k { st with tcpStore := ainsert st.tcpStore k v } h
  obtain ⟨hw1, hw2⟩ := setHandler_waiting_keysAwaited k v st
  exact ⟨by rw [hw1]; exact h2.1, fun s => by rw [hw2, hw1]; exact h2.2 s⟩

theorem addApply_waiting_keysAwaited (sock : Socket) (k : Key) (o : Bytes)
    (t : Int) (st : DaemonState) :
    (addApply sock k o t st).1.waitingSockets =
      (wakeupWaitingClients k
        { st with tcpStore := ainsert st.tcpStore k (intToDecBytes t) }).1.waitingSockets ∧
    (addApply sock k o t st).1.keysAwaited =
      (wakeupWaitingClients k
        { st with tcpStore := ainsert st.tcpStore k (intToDecBytes t) }).1.keysAwaited := by
  unfold addApply sendKeyUpdatesToClients
  cases alookup (wakeupWaitingClients k
      { st with tcpStore := ainsert st.tcpStore k (intToDecBytes t) }).1.watchedSockets k <;>
    simp

theorem addApply_StInv (sock : Socket) (k : Key) (o : Bytes) (t : Int)
    (st : DaemonState) (h : StInv st) : StInv (addApply sock k o t st).1 := by
  have h2 := wakeup_StInv k
    { st with tcpStore := ainsert st.tcpStore k (intToDecBytes t) } h
  obtain ⟨ha1, ha2⟩ := addApply_waiting_keysAwaited sock k o t st
  exact ⟨by rw [ha1]; exact h2.1, fun s => by rw [ha2, ha1]; exact h2.2 s⟩

theorem addHandler_inv (sock : Socket) (k : Key) (dl : Int) (st : DaemonState)
    (st' : DaemonState) (total : Int) (msgs : List (Socket × Msg))
    (h : addHandler sock k dl st = some (st', total, msgs)) :
    ∃ o, st' = (addApply sock k o total st).1 ∧
      msgs = (addApply sock k o total st).2.2 := by
  unfold addHandler at h
  cases hs : alookup st.tcpStore k with
  | none =>
    rw [hs] at h
    have h2 := Option.some.inj h
    have htd : dl = total := congrArg (fun q => q.2.1) h2
    subst htd
    exact ⟨[], (congrArg Prod.fst h2).symm,
      (congrArg (fun q => q.2.2) h2).symm⟩
  | some w =>
    simp only [hs] at h
    cases hp : stollParse w with
    | none => simp [hp] at h
    | some c =>
      simp only [hp, Option.some.injEq] at h
      have htd : dl + c = total := congrArg (fun q => q.2.1) h
      subst htd
      exact ⟨w, (congrArg Prod.fst h).symm,
        (congrArg (fun q => q.2.2) h).symm⟩

theorem waitHandler_StInv (sock : Socket) (keys : List Key)
    (st : DaemonState) (h : StInv st)
    (h0 : (alookup st.keysAwaited sock).getD 0 = 0) :
    StInv (waitHandler sock keys st).1 := by
  obtain ⟨hu, hwi⟩ := h
  unfold waitHandler
  by_cases hc : checkKeys st keys
  · simp only [if_pos hc]
    exact ⟨hu, hwi⟩
  · simp only [if_neg hc]
    obtain ⟨w1, w2, w3⟩ :=
      waitReg_spec sock keys st.waitingSockets st.tcpStore 0
    refine ⟨w3 hu, fun s => ?_⟩
    show (alookup (ainsert st.keysAwaited sock
        (waitReg sock keys st.waitingSockets st.tcpStore 0).2) s).getD 0 = _
    by_cases hs : s = sock
    · subst hs
      have hocc : occTotal st.waitingSockets s = 0 := by
        have := hwi s
        rw [h0] at this
        omega
      rw [alookup_ainsert_self, Option.getD_some, w1, w2 s, if_pos rfl, hocc]
      omega
    · rw [alookup_ainsert_ne st.keysAwaited sock s _ hs, w2 s]
      simp only [if_neg hs]
      rw [hwi s]
      omega

theorem scrub_StInv (st : DaemonState) (s0 : Socket) (h : StInv st) :
    StInv (scrub st s0) := by
  obtain ⟨hu, hwi⟩ := h
  refine ⟨UniqKeys_scrubBuckets _ _ hu, fun s => ?_⟩
  show (alookup (aeraseAll st.keysAwaited s0) s).getD 0 =
    (occTotal (scrubBuckets st.waitingSockets s0) s : Int)
  by_cases hs : s = s0
  · subst hs
    rw [alookup_aeraseAll_self, occTotal_scrubBuckets_self]
    rfl
  · rw [alookup_aeraseAll_ne _ _ _ hs, occTotal_scrubBuckets_ne _ _ _ hs]
    exact hwi s

theorem compareSet_wait_fields (sock : Socket) (k : Key) (c n : Bytes)
    (st : DaemonState) :
    (compareSetHandler sock k c n st).1.waitingSockets = st.waitingSockets ∧
    (compareSetHandler sock k c n st).1.keysAwaited = st.keysAwaited := by
  unfold compareSetHandler
  cases alookup st.tcpStore k with
  | none => exact ⟨rfl, rfl⟩
  | some v => by_cases h : v = c <;> simp [h]

theorem stepA_StInv (st : DaemonState) (a : Socket × Request) (h : StInv st)
    (hw : isWaitReq a.2 = true → (alookup st.keysAwaited a.1).getD 0 = 0) :
    StInv (stepA st a) := by
  obtain ⟨sock, r⟩ := a
  cases r with
  | set k v => exact setHandler_StInv k v st h
  | compareSet k c n =>
    have hf := compareSet_wait_fields sock k c n st
    show StInv (compareSetHandler sock k c n st).1
    exact ⟨by rw [hf.1]; exact h.1, fun s => by rw [hf.2, hf.1]; exact h.2 s⟩
  | add k dl =>
    show StInv (dispatchStep sock (Request.add k dl) st).1
    unfold dispatchStep handle
    cases hh : addHandler sock k dl st with
    | none =>
      simp only [hh]
      exact scrub_StInv st sock h
    | some q =>
      obtain ⟨st', total, msgs⟩ := q
      obtain ⟨o, hst, hmsg⟩ := addHandler_inv sock k dl st st' total msgs hh
      simp only [hh]
      show StInv st'
      rw [hst]
      exact addApply_StInv sock k o total st h
  | get k =>
    show StInv (dispatchStep sock (Request.get k) st).1
    cases hh : alookup st.tcpStore k with
    | none =>
      unfold dispatchStep handle getHandler
      simp only [hh]
      exact scrub_StInv st sock h
    | some v =>
      unfold dispatchStep handle getHandler
      simp only [hh]
      exact h
  | check keys => exact h
  | wait keys => exact waitHandler_StInv sock keys st h (hw rfl)
  | getNumKeys => exact h
  | watchKey k => exact h
  | deleteKey k => exact h

theorem execTrace_StInv : ∀ (tr : List (Socket × Request)) (st : DaemonState),
    StInv st → GoodTrace tr st → StInv (execTrace tr st)
  | [], _, h, _ => h
  | a :: t, st, h, hg =>
    execTrace_StInv t (stepA st a) (stepA_StInv st a h hg.1) hg.2

end TCPStore

namespace TCPStore

/-! ### C3: the SET/ADD wake behaviour -/

theorem setHandler_msgs (k : Key) (v : Bytes) (st : DaemonState) :
    (setHandler k v st).2 =
      (wakeupWaitingClients k { st with tcpStore := ainsert st.tcpStore k v }).2 ++
      (sendKeyUpdatesToClients k ((alookup st.tcpStore k).getD []) v
        (wakeupWaitingClients k
          { st with tcpStore := ainsert st.tcpStore k v }).1.watchedSockets).2 :=
  rfl

theorem addApply_allMsgs (sock : Socket) (k : Key) (o : Bytes) (t : Int)
    (st : DaemonState) :
    (addApply sock k o t st).2.2 =
      (sock, Msg.intReply t) ::
        ((wakeupWaitingClients k
            { st with tcpStore := ainsert st.tcpStore k (intToDecBytes t) }).2 ++
         (sendKeyUpdatesToClients k o (intToDecBytes t)
           (wakeupWaitingClients k
             { st with tcpStore := ainsert st.tcpStore k (intToDecBytes t) }).1.watchedSockets).2) :=
  rfl

theorem setHandler_wake (k : Key) (v : Bytes) (st : DaemonState) (s : Socket) :
    ((alookup (setHandler k v st).1.keysAwaited s).getD 0 =
      (alookup st.keysAwaited s).getD 0 -
        (countSock ((alookup st.waitingSockets k).getD []) s : Int)) ∧
    (countStopTo s (setHandler k v st).2 =
      if 1 ≤ (alookup st.keysAwaited s).getD 0 ∧
         (alookup st.keysAwaited s).getD 0 ≤
           (countSock ((alookup st.waitingSockets k).getD []) s : Int)
       then 1 else 0) ∧
    (UniqKeys st.waitingSockets →
      occTotal (setHandler k v st).1.waitingSockets s =
        occTotal st.waitingSockets s -
          countSock ((alookup st.waitingSockets k).getD []) s) ∧
    (∀ socks, alookup st.waitingSockets k = some socks →
      countSock socks s ≠ 0 →
      alookup (setHandler k v st).1.keysAwaited s =
        some ((alookup st.keysAwaited s).getD 0 - (countSock socks s : Int))) := by
  refine ⟨?_, ?_, fun hu => ?_, fun socks hb hc => ?_⟩
  · rw [(setHandler_waiting_keysAwaited k v st).2]
    exact wakeup_getD k { st with tcpStore := ainsert st.tcpStore k v } s
  · rw [setHandler_msgs, countStopTo_append, countStopTo_sendKeyUpdates,
      Nat.add_zero]
    exact wakeup_countStop k { st with tcpStore := ainsert st.tcpStore k v } s
  · rw [(setHandler_waiting_keysAwaited k v st).1]
    exact wakeup_occ k { st with tcpStore := ainsert st.tcpStore k v } s hu
  · rw [(setHandler_waiting_keysAwaited k v st).2]
    exact wakeup_lookup_pos k { st with tcpStore := ainsert st.tcpStore k v }
      s socks hb hc

theorem addApply_wake (sock : Socket) (k : Key) (o : Bytes) (t : Int)
    (st : DaemonState) (s : Socket) :
    ((alookup (addApply sock k o t st).1.keysAwaited s).getD 0 =
      (alookup st.keysAwaited s).getD 0 -
        (countSock ((alookup st.waitingSockets k).getD []) s : Int)) ∧
    (countStopTo s (addApply sock k o t st).2.2 =
      if 1 ≤ (alookup st.keysAwaited s).getD 0 ∧
         (alookup st.keysAwaited s).getD 0 ≤
           (countSock ((alookup st.waitingSockets k).getD []) s : Int)
       then 1 else 0) ∧
    (UniqKeys st.waitingSockets →
      occTotal (addApply sock k o t st).1.waitingSockets s =
        occTotal st.waitingSockets s -
          countSock ((alookup st.waitingSockets k).getD []) s) ∧
    (∀ socks, alookup st.waitingSockets k = some socks →
      countSock socks s ≠ 0 →
      alookup (addApply sock k o t st).1.keysAwaited s =
        some ((alookup st.keysAwaited s).getD 0 - (countSock socks s : Int))) := by
  refine ⟨?_, ?_, fun hu => ?_, fun socks hb hc => ?_⟩
  · rw [(addApply_waiting_keysAwaited sock k o t st).2]
    exact wakeup_getD k
      { st with tcpStore := ainsert st.tcpStore k (intToDecBytes t) } s
  · rw [addApply_allMsgs]
    have hhd : countStopTo s ((sock, Msg.intReply t) ::
        ((wakeupWaitingClients k
            { st with tcpStore := ainsert st.tcpStore k (intToDecBytes t) }).2 ++
         (sendKeyUpdatesToClients k o (intToDecBytes t)
           (wakeupWaitingClients k
             { st with tcpStore := ainsert st.tcpStore k (intToDecBytes t) }).1.watchedSockets).2)) =
        countStopTo s
          ((wakeupWaitingClients k
             { st with tcpStore := ainsert st.tcpStore k (intToDecBytes t) }).2 ++
           (sendKeyUpdatesToClients k o (intToDecBytes t)
             (wakeupWaitingClients k
               { st with tcpStore := ainsert st.tcpStore k (intToDecBytes t) }).1.watchedSockets).2) := by
      simp [countStopTo]
    rw [hhd, countStopTo_append, countStopTo_sendKeyUpdates, Nat.add_zero]
    exact wakeup_countStop k
      { st with tcpStore := ainsert st.tcpStore k (intToDecBytes t) } s
  · rw [(addApply_waiting_keysAwaited sock k o t st).1]
    exact wakeup_occ k
      { st with tcpStore := ainsert st.tcpStore k (intToDecBytes t) } s hu
  · rw [(addApply_waiting_keysAwaited sock k o t st).2]
    exact wakeup_lookup_pos k
      { st with tcpStore := ainsert st.tcpStore k (intToDecBytes t) }
      s socks hb hc

end TCPStore

namespace TCPStore

/-- What a SET/ADD on key `k` does to socket `s`'s wait record: the
remaining-count drops by `s`'s multiplicity in `k`'s bucket; exactly one
STOP_WAITING is pushed to `s` iff its count was positive and is driven to 0;
and in that case `s` afterwards occurs in no waiting bucket while its
remaining-count entry survives with value 0 (it is not erased). -/
abbrev WakeSpec (st st' : DaemonState) (msgs : List (Socket × Msg)) (k : Key)
    (s : Socket) : Prop :=
  ((alookup st'.keysAwaited s).getD 0 =
    (alookup st.keysAwaited s).getD 0 -
      (countSock ((alookup st.waitingSockets k).getD []) s : Int)) ∧
  (countStopTo s msgs =
    if 0 < (alookup st.keysAwaited s).getD 0 ∧
       (alookup st.keysAwaited s).getD 0 =
         (countSock ((alookup st.waitingSockets k).getD []) s : Int)
     then 1 else 0) ∧
  (0 < (alookup st.keysAwaited s).getD 0 →
   (alookup st.keysAwaited s).getD 0 =
     (countSock ((alookup st.waitingSockets k).getD []) s : Int) →
   occTotal st'.waitingSockets s = 0 ∧
   alookup st'.keysAwaited s = some 0)

theorem wakeSpec_of_parts (st st' : DaemonState) (msgs : List (Socket × Msg))
    (k : Key) (s : Socket)
    (hwi : WaitInv st)
    (w1 : (alookup st'.keysAwaited s).getD 0 =
      (alookup st.keysAwaited s).getD 0 -
        (countSock ((alookup st.waitingSockets k).getD []) s : Int))
    (w2 : countStopTo s msgs =
      if 1 ≤ (alookup st.keysAwaited s).getD 0 ∧
         (alookup st.keysAwaited s).getD 0 ≤
           (countSock ((alookup st.waitingSockets k).getD []) s : Int)
       then 1 else 0)
    (w3 : occTotal st'.waitingSockets s =
      occTotal st.waitingSockets s -
        countSock ((alookup st.waitingSockets k).getD []) s)
    (w4 : ∀ socks, alookup st.waitingSockets k = some socks →
      countSock socks s ≠ 0 →
      alookup st'.keysAwaited s =
        some ((alookup st.keysAwaited s).getD 0 - (countSock socks s : Int))) :
    WakeSpec st st' msgs k s := by
  have hN := hwi s
  have hle := countSock_le_occTotal st.waitingSockets k s
  refine ⟨w1, ?_, fun h1 h2 => ⟨?_, ?_⟩⟩
  · rw [w2]
    exact if_congr (by omega) rfl rfl
  · rw [w3]
    omega
  · cases hb : alookup st.waitingSockets k with
    | none =>
      rw [hb] at h2
      simp only [Option.getD_none, countSock, Nat.cast_zero] at h2
      exact absurd h1 (by omega)
    | some socks =>
      rw [hb] at h2
      simp only [Option.getD_some] at h2
      have hc : countSock socks s ≠ 0 := by omega
      rw [w4 socks hb hc, h2]
      simp

/-- C3 (amended): in every daemon state reached from the empty state by a
request trace in which no socket issues a WAIT while its remaining-count is
positive, each socket's remaining-count (0 when its entry is absent) equals
its total number of occurrences across the key→waiting-sockets buckets
(counting multiplicity, one occurrence per not-yet-present key instance it
awaits); and a SET, or a completed ADD, on key `k` then satisfies `WakeSpec`:
each socket's count drops by its multiplicity in `k`'s bucket, exactly one
STOP_WAITING is sent to the sockets whose positive count reaches 0, and those
sockets keep a remaining-count entry of value 0 — the entry is not erased —
while their bucket occurrences are all gone. -/
theorem wait_record_invariant (tr : List (Socket × Request))
    (hg : GoodTrace tr initState) :
    WaitInv (execTrace tr initState) ∧
    (∀ k v s, WakeSpec (execTrace tr initState)
      (setHandler k v (execTrace tr initState)).1
      (setHandler k v (execTrace tr initState)).2 k s) ∧
    (∀ sock k dl st' total msgs s,
      addHandler sock k dl (execTrace tr initState) =
        some (st', total, msgs) →
      WakeSpec (execTrace tr initState) st' msgs k s) := by
  have h0 : StInv initState := ⟨trivial, fun s => rfl⟩
  have hinv := execTrace_StInv tr initState h0 hg
  refine ⟨hinv.2, fun k v s => ?_, fun sock k dl st' total msgs s hh => ?_⟩
  · obtain ⟨w1, w2, w3, w4⟩ := setHandler_wake k v (execTrace tr initState) s
    exact wakeSpec_of_parts _ _ _ k s hinv.2 w1 w2 (w3 hinv.1) w4
  · obtain ⟨o, hst, hmsg⟩ :=
      addHandler_inv sock k dl (execTrace tr initState) st' total msgs hh
    subst hst
    subst hmsg
    obtain ⟨w1, w2, w3, w4⟩ :=
      addApply_wake sock k o total (execTrace tr initState) s
    exact wakeSpec_of_parts _ _ _ k s hinv.2 w1 w2 (w3 hinv.1) w4

/-- C3 counterexample against the claim as stated.  First: after
`wait(5, ["a"]); set("a", "1")` the daemon still holds the remaining-count
entry `5 ↦ 0` — the record is not cleared when the count reaches 0.  Second:
two WAITs from the same socket leave it with remaining-count 1 while it
occurs in two waiting lists, refuting "appears in exactly N lists" for
arbitrary request traces.  Third: one WAIT with a duplicated key gives
remaining-count 2 with the socket present in only one list. -/
theorem wait_record_counterexample :
    ((execTrace [(5, Request.wait ["a"]), (6, Request.set "a" [49])]
      initState).keysAwaited = [(5, 0)]) ∧
    ((alookup (execTrace [(5, Request.wait ["a"]), (5, Request.wait ["b"])]
        initState).keysAwaited 5).getD 0 = 1 ∧
      occTotal (execTrace [(5, Request.wait ["a"]), (5, Request.wait ["b"])]
        initState).waitingSockets 5 = 2) ∧
    ((alookup (execTrace [(5, Request.wait ["a", "a"])]
        initState).keysAwaited 5).getD 0 = 2 ∧
      listsContaining (execTrace [(5, Request.wait ["a", "a"])]
        initState).waitingSockets 5 = 1) :=
  ⟨by decide, ⟨by decide, by decide⟩, ⟨by decide, by decide⟩⟩

theorem wait_record_invariant_witness :
    countStopTo 5 (setHandler "a" [49]
      (execTrace [(5, Request.wait ["a"])] initState)).2 = 1 := by
  have hg : GoodTrace [(5, Request.wait ["a"])] initState :=
    ⟨fun _ => rfl, trivial⟩
  have h := ((wait_record_invariant [(5, Request.wait ["a"])] hg).2.1
    "a" [49] 5).2.1
  rw [h]
  decide

end TCPStore
